import Mathlib

/-!
Verification of the path-decomposition library in `file.h` (namespaces
`util::wide` and `util::utf8`).  Paths are modelled as lists of code-unit
values (`List Nat`); pointers into a span become natural-number offsets.
`std::find_if` / `std::find_if_not` / `std::find` become `find_if_idx`,
the backward-moving pointer loops become the structural recursion
`retreat`, and the backward dot scan of `find_extension` becomes
`rscan_dot`.  The 8-bit / 16-bit casts in `is_drive_prefix` are modelled
with explicit `% 256` / `% 65536`.
-/

/-- Index of the first element of `l` satisfying `pred`, or `l.length`
if there is none: the offset form of `std::find_if(first, last, pred)`. -/
def find_if_idx (pred : Nat → Bool) : List Nat → Nat
  | [] => 0
  | c :: cs => if pred c then 0 else find_if_idx pred cs + 1

/-- Offset form of the loop `while (lo != t && pred(p[t-1])) --t;`
used by `parent_path` and `find_filename`. -/
def retreat (p : List Nat) (lo : Nat) (pred : Nat → Bool) : Nat → Nat
  | 0 => 0
  | t + 1 => if decide (lo ≤ t) && pred (p.getD t 0) then retreat p lo pred t else t + 1

/-- Offset form of the loop `while (filename != --extension) { if (*extension == '.') return extension; }`
in `find_extension`: scan indices `e, e-1, ..., 1` for a dot, returning
`f.length` when none is found. -/
def rscan_dot (f : List Nat) : Nat → Nat
  | 0 => f.length
  | e + 1 => if f.getD (e + 1) 0 == 46 then e + 1 else rscan_dot f e

namespace utf8

/-- `c | ('a' - 'A')` on an 8-bit unit. -/
def ascii_lowercase (c : Nat) : Nat := (c ||| 32) % 256

/-- `((uint8_t)((uint8_t)ascii_lowercase(c0) - (uint8_t)'a') < 26) && c1 == ':'`;
the `uint8_t` casts become `% 256`, and unsigned subtraction of 97 becomes
`+ 159` modulo 256. -/
def is_drive_prefix (c0 c1 : Nat) : Bool :=
  decide ((ascii_lowercase c0 + 159) % 256 < 26) && c1 == 58

/-- `last - first >= 2 && is_drive_prefix(first)` on the span `p`. -/
def has_drive_letter_prefix (p : List Nat) : Bool :=
  decide (2 ≤ p.length) && is_drive_prefix (p.getD 0 0) (p.getD 1 0)

/-- `c == '\\' || c == '/'` (92 and 47). -/
def is_slash (c : Nat) : Bool := c == 92 || c == 47

/-- `find_root_name_end` on the span `p`; returns the offset of the end of the
root-name, or `0` when there is none.  `63` is `'?'`, `46` is `'.'`. -/
def find_root_name_end (p : List Nat) : Nat :=
  if p.length < 2 then 0
  else if has_drive_letter_prefix p then 2
  else if ! is_slash (p.getD 0 0) then 0
  else if decide (4 ≤ p.length) && is_slash (p.getD 3 0)
          && (p.length == 4 || ! is_slash (p.getD 4 0))
          && ((is_slash (p.getD 1 0) && (p.getD 2 0 == 63 || p.getD 2 0 == 46))
              || (p.getD 1 0 == 63 && p.getD 2 0 == 63)) then 3
  else if decide (3 ≤ p.length) && is_slash (p.getD 1 0) && ! is_slash (p.getD 2 0) then
    3 + find_if_idx is_slash (p.drop 3)
  else 0

/-- `root_name(path)`: the sub-span `[first, find_root_name_end)`. -/
def root_name (p : List Nat) : List Nat := p.take (find_root_name_end p)

/-- `find_relative_path`: `std::find_if_not(find_root_name_end(first,last), last, is_slash)`. -/
def find_relative_path (p : List Nat) : Nat :=
  find_root_name_end p + find_if_idx (fun c => ! is_slash c) (p.drop (find_root_name_end p))

/-- `relative_path(path)`: the sub-span `[find_relative_path, last)`. -/
def relative_path (p : List Nat) : List Nat := p.drop (find_relative_path p)

/-- `parent_path(path)`: retreat `tail` from `last` past the trailing filename,
then past all trailing slashes, both loops bounded below by the start of the
relative path; return the prefix `[first, tail)`. -/
def parent_path (p : List Nat) : List Nat :=
  p.take (retreat p (find_relative_path p) is_slash
    (retreat p (find_relative_path p) (fun c => ! is_slash c) p.length))

/-- `find_filename`: retreat from `path_end` while the previous unit is not a
slash, bounded below by the start of the relative path. -/
def find_filename (p : List Nat) : Nat :=
  retreat p (find_relative_path p) (fun c => ! is_slash c) p.length

/-- `filename(path)`: the sub-span `[find_filename, last)`. -/
def filename (p : List Nat) : List Nat := p.drop (find_filename p)

/-- `find_extension` over the filename range `f` (already cut at the first
`':'` by the callers); returns the offset where the extension starts, or
`f.length` when the extension is empty. -/
def find_extension (f : List Nat) : Nat :=
  if f.length = 0 then f.length
  else if f.length = 1 then f.length
  else if f.getD (f.length - 1) 0 == 46 then
    if decide (f.length - 1 = 1) && f.getD 0 0 == 46 then f.length
    else f.length - 1
  else rscan_dot f (f.length - 2)

/-- `stem(path)`: filename up to the stem/extension division, the division
being computed on the filename cut at its first `':'` (58). -/
def stem (p : List Nat) : List Nat :=
  (filename p).take
    (find_extension ((filename p).take (find_if_idx (fun c => c == 58) (filename p))))

/-- `extension(path)`: from the stem/extension division to the first `':'`
(58) of the filename. -/
def extension (p : List Nat) : List Nat :=
  ((filename p).take (find_if_idx (fun c => c == 58) (filename p))).drop
    (find_extension ((filename p).take (find_if_idx (fun c => c == 58) (filename p))))

end utf8

namespace wide

/-- `c | (L'a' - L'A')` on a 16-bit unit. -/
def ascii_lowercase (c : Nat) : Nat := (c ||| 32) % 65536

/-- `((uint16_t)(ascii_lowercase(c0) - L'a') < 26) && c1 == L':'`; the
`uint16_t` cast becomes `% 65536`, and unsigned subtraction of 97 becomes
`+ 65439` modulo 65536. -/
def is_drive_prefix (c0 c1 : Nat) : Bool :=
  decide ((ascii_lowercase c0 + 65439) % 65536 < 26) && c1 == 58

/-- `last - first >= 2 && is_drive_prefix(first)` on the span `p`. -/
def has_drive_letter_prefix (p : List Nat) : Bool :=
  decide (2 ≤ p.length) && is_drive_prefix (p.getD 0 0) (p.getD 1 0)

/-- `c == L'\\' || c == L'/'` (92 and 47). -/
def is_slash (c : Nat) : Bool := c == 92 || c == 47

/-- `find_root_name_end` of `util::wide` on the span `p`. -/
def find_root_name_end (p : List Nat) : Nat :=
  if p.length < 2 then 0
  else if has_drive_letter_prefix p then 2
  else if ! is_slash (p.getD 0 0) then 0
  else if decide (4 ≤ p.length) && is_slash (p.getD 3 0)
          && (p.length == 4 || ! is_slash (p.getD 4 0))
          && ((is_slash (p.getD 1 0) && (p.getD 2 0 == 63 || p.getD 2 0 == 46))
              || (p.getD 1 0 == 63 && p.getD 2 0 == 63)) then 3
  else if decide (3 ≤ p.length) && is_slash (p.getD 1 0) && ! is_slash (p.getD 2 0) then
    3 + find_if_idx is_slash (p.drop 3)
  else 0

/-- `root_name(path)` of `util::wide`. -/
def root_name (p : List Nat) : List Nat := p.take (find_root_name_end p)

/-- `find_relative_path` of `util::wide`. -/
def find_relative_path (p : List Nat) : Nat :=
  find_root_name_end p + find_if_idx (fun c => ! is_slash c) (p.drop (find_root_name_end p))

/-- `relative_path(path)` of `util::wide`. -/
def relative_path (p : List Nat) : List Nat := p.drop (find_relative_path p)

/-- `parent_path(path)` of `util::wide`. -/
def parent_path (p : List Nat) : List Nat :=
  p.take (retreat p (find_relative_path p) is_slash
    (retreat p (find_relative_path p) (fun c => ! is_slash c) p.length))

/-- `find_filename` of `util::wide`. -/
def find_filename (p : List Nat) : Nat :=
  retreat p (find_relative_path p) (fun c => ! is_slash c) p.length

/-- `filename(path)` of `util::wide`. -/
def filename (p : List Nat) : List Nat := p.drop (find_filename p)

/-- `find_extension` of `util::wide`. -/
def find_extension (f : List Nat) : Nat :=
  if f.length = 0 then f.length
  else if f.length = 1 then f.length
  else if f.getD (f.length - 1) 0 == 46 then
    if decide (f.length - 1 = 1) && f.getD 0 0 == 46 then f.length
    else f.length - 1
  else rscan_dot f (f.length - 2)

/-- `stem(path)` of `util::wide`. -/
def stem (p : List Nat) : List Nat :=
  (filename p).take
    (find_extension ((filename p).take (find_if_idx (fun c => c == 58) (filename p))))

/-- `extension(path)` of `util::wide`. -/
def extension (p : List Nat) : List Nat :=
  ((filename p).take (find_if_idx (fun c => c == 58) (filename p))).drop
    (find_extension ((filename p).take (find_if_idx (fun c => c == 58) (filename p))))

end wide

/-- Code units of a (byte-valued) string literal, for concrete test inputs. -/
def u (s : String) : List Nat := s.data.map Char.toNat

/-- An ASCII letter, exactly `A`–`Z` (65–90) or `a`–`z` (97–122), as the
spec words the drive-letter test. -/
def is_ascii_letter (c : Nat) : Bool :=
  (decide (65 ≤ c) && decide (c ≤ 90)) || (decide (97 ≤ c) && decide (c ≤ 122))

/-- The spec's six-step decision order for the end of the root-name,
written from the spec's wording (first match wins): (1) fewer than 2 units;
(2) ASCII letter followed by `:`; (3) first unit not a slash; (4) device
namespace `\\?\`, `\\.\` or `\??\` (slashes generic) with position 3 a slash
and position 3 last or position 4 not a slash; (5) two leading slashes and a
third unit that is not a slash, giving the first slash at or after position
3 or the end; (6) otherwise no root-name. -/
def root_name_end_spec (p : List Nat) : Nat :=
  if p.length < 2 then 0
  else if is_ascii_letter (p.getD 0 0) && p.getD 1 0 == 58 then 2
  else if ! utf8.is_slash (p.getD 0 0) then 0
  else if decide (4 ≤ p.length)
          && (( utf8.is_slash (p.getD 0 0) && utf8.is_slash (p.getD 1 0)
                && (p.getD 2 0 == 63 || p.getD 2 0 == 46))
              || ( utf8.is_slash (p.getD 0 0) && p.getD 1 0 == 63 && p.getD 2 0 == 63))
          && utf8.is_slash (p.getD 3 0)
          && (p.length == 4 || ! utf8.is_slash (p.getD 4 0)) then 3
  else if decide (3 ≤ p.length) && utf8.is_slash (p.getD 0 0) && utf8.is_slash (p.getD 1 0)
          && ! utf8.is_slash (p.getD 2 0) then
    3 + find_if_idx utf8.is_slash (p.drop 3)
  else 0

/-! ### Helper lemmas about `getD`, `find_if_idx`, `retreat`, `rscan_dot` -/

theorem getD_take {p : List Nat} {i n : Nat} (h : i < n) :
    (p.take n).getD i 0 = p.getD i 0 := by
  rw [List.getD_eq_getElem?_getD, List.getD_eq_getElem?_getD, List.getElem?_take, if_pos h]

theorem getD_drop (p : List Nat) (n i : Nat) :
    (p.drop n).getD i 0 = p.getD (n + i) 0 := by
  rw [List.getD_eq_getElem?_getD, List.getD_eq_getElem?_getD, List.getElem?_drop]

theorem mem_of_getD {p : List Nat} {i : Nat} (h : i < p.length) : p.getD i 0 ∈ p := by
  rw [List.getD_eq_getElem p 0 h]
  exact List.getElem_mem h

theorem find_if_idx_le_length (pred : Nat → Bool) (l : List Nat) :
    find_if_idx pred l ≤ l.length := by
  induction l with
  | nil => simp [find_if_idx]
  | cons c cs ih =>
    simp only [find_if_idx, List.length_cons]
    split
    · omega
    · omega

theorem find_if_idx_lt (pred : Nat → Bool) (l : List Nat) :
    ∀ i, i < find_if_idx pred l → pred (l.getD i 0) = false := by
  induction l with
  | nil => intro i h; simp [find_if_idx] at h
  | cons c cs ih =>
    intro i h
    simp only [find_if_idx] at h
    by_cases hc : pred c
    · simp [hc] at h
    · rw [if_neg hc] at h
      cases i with
      | zero => simpa using hc
      | succ j =>
        simp only [List.getD_cons_succ]
        exact ih j (by omega)

theorem find_if_idx_found (pred : Nat → Bool) (l : List Nat)
    (h : find_if_idx pred l < l.length) : pred (l.getD (find_if_idx pred l) 0) = true := by
  induction l with
  | nil => simp [find_if_idx] at h
  | cons c cs ih =>
    simp only [find_if_idx] at h ⊢
    by_cases hc : pred c
    · simp [hc]
    · rw [if_neg hc] at h ⊢
      simp only [List.getD_cons_succ]
      exact ih (by simpa using Nat.lt_of_succ_lt_succ h)

theorem find_if_idx_all_false (pred : Nat → Bool) (l : List Nat)
    (h : ∀ c ∈ l, pred c = false) : find_if_idx pred l = l.length := by
  induction l with
  | nil => simp [find_if_idx]
  | cons c cs ih =>
    simp only [find_if_idx, List.length_cons]
    rw [if_neg (by simp [h c (by simp)])]
    rw [ih (fun x hx => h x (by simp [hx]))]

theorem retreat_le (p : List Nat) (lo : Nat) (pred : Nat → Bool) (t : Nat) :
    retreat p lo pred t ≤ t := by
  induction t with
  | zero => simp [retreat]
  | succ s ih =>
    simp only [retreat]
    split
    · omega
    · omega

theorem le_retreat (p : List Nat) (lo : Nat) (pred : Nat → Bool) (t : Nat)
    (h : lo ≤ t) : lo ≤ retreat p lo pred t := by
  induction t with
  | zero => exact Nat.le_trans h (Nat.zero_le _)
  | succ s ih =>
    simp only [retreat]
    split
    · next hc =>
      exact ih (by have := hc; simp at this; omega)
    · omega

theorem retreat_pred (p : List Nat) (lo : Nat) (pred : Nat → Bool) (t : Nat) :
    ∀ i, retreat p lo pred t ≤ i → i < t → pred (p.getD i 0) = true := by
  induction t with
  | zero => intro i h1 h2; omega
  | succ s ih =>
    intro i h1 h2
    simp only [retreat] at h1
    by_cases hc : (decide (lo ≤ s) && pred (p.getD s 0)) = true
    · rw [if_pos hc] at h1
      rcases Nat.lt_or_ge i s with hi | hi
      · exact ih i h1 hi
      · have : i = s := by omega
        subst this
        exact (Bool.and_eq_true _ _).mp hc |>.2
    · rw [if_neg hc] at h1
      omega

theorem retreat_stop (p : List Nat) (lo : Nat) (pred : Nat → Bool) (t : Nat)
    (h : lo ≤ t) :
    retreat p lo pred t = lo ∨ pred (p.getD (retreat p lo pred t - 1) 0) = false := by
  induction t with
  | zero =>
    left
    have h0 : retreat p lo pred 0 = 0 := rfl
    omega
  | succ s ih =>
    simp only [retreat]
    by_cases hc : (decide (lo ≤ s) && pred (p.getD s 0)) = true
    · rw [if_pos hc]
      exact ih ((Bool.and_eq_true _ _).mp hc |>.1 |> of_decide_eq_true)
    · rw [if_neg hc]
      rcases Nat.lt_or_ge lo (s + 1) with hlo | hlo
      · right
        simp only [Nat.add_sub_cancel]
        rcases Bool.and_eq_false_iff.mp (Bool.eq_false_iff.mpr hc) with hd | hp
        · exact absurd (decide_eq_true (by omega : lo ≤ s)) (by simp [hd])
        · exact hp
      · left; omega

theorem retreat_eq_self (p : List Nat) (pred : Nat → Bool) (t : Nat) :
    retreat p t pred t = t :=
  Nat.le_antisymm (retreat_le p t pred t) (le_retreat p t pred t (Nat.le_refl t))

theorem retreat_all_true (p : List Nat) (pred : Nat → Bool) (t : Nat)
    (h : ∀ i, i < t → pred (p.getD i 0) = true) : retreat p 0 pred t = 0 := by
  induction t with
  | zero => simp [retreat]
  | succ s ih =>
    simp only [retreat]
    have hc : (decide (0 ≤ s) && pred (p.getD s 0)) = true := by
      rw [decide_eq_true (Nat.zero_le s), Bool.true_and]
      exact h s (Nat.lt_succ_self s)
    rw [if_pos hc]
    exact ih (fun i hi => h i (by omega))

theorem rscan_dot_le (f : List Nat) (e : Nat) (h : e ≤ f.length) :
    rscan_dot f e ≤ f.length := by
  induction e with
  | zero => simp [rscan_dot]
  | succ d ih =>
    simp only [rscan_dot]
    split
    · omega
    · exact ih (by omega)

theorem rscan_dot_found (f : List Nat) (e : Nat) (i : Nat)
    (h0 : 0 < i) (h1 : i ≤ e) (h2 : f.getD i 0 = 46)
    (h3 : ∀ j, i < j → j ≤ e → f.getD j 0 ≠ 46) : rscan_dot f e = i := by
  induction e with
  | zero => omega
  | succ d ih =>
    simp only [rscan_dot]
    by_cases hlast : f.getD (d + 1) 0 = 46
    · rw [if_pos (by simpa using hlast)]
      by_contra hne
      exact h3 (d + 1) (by omega) (by omega) hlast
    · rw [if_neg (by simpa using hlast)]
      have hi : i ≤ d := by
        by_contra hgt
        have hie : i = d + 1 := by omega
        exact hlast (hie ▸ h2)
      exact ih hi (fun j hj1 hj2 => h3 j hj1 (by omega))

theorem rscan_dot_none (f : List Nat) (e : Nat)
    (h : ∀ i, 0 < i → i ≤ e → f.getD i 0 ≠ 46) : rscan_dot f e = f.length := by
  induction e with
  | zero => simp [rscan_dot]
  | succ d ih =>
    simp only [rscan_dot]
    rw [if_neg (by simpa using h (d + 1) (by omega) (by omega))]
    exact ih (fun i hi1 hi2 => h i hi1 (by omega))

/-! ### Arithmetic of the drive-letter bit trick, and basic bounds -/

theorem getD_lt_256 (p : List Nat) (hb : ∀ c ∈ p, c < 256) (i : Nat) :
    p.getD i 0 < 256 := by
  by_cases h : i < p.length
  · exact hb _ (mem_of_getD h)
  · rw [List.getD_eq_getElem?_getD, List.getElem?_eq_none (by omega)]
    simp

set_option maxRecDepth 4000 in
theorem drive_letter_decide :
    ∀ c < 256, decide ((utf8.ascii_lowercase c + 159) % 256 < 26) = is_ascii_letter c := by
  decide

set_option maxRecDepth 4000 in
theorem drive_wide_narrow :
    ∀ c < 256,
      decide ((wide.ascii_lowercase c + 65439) % 65536 < 26)
        = decide ((utf8.ascii_lowercase c + 159) % 256 < 26) := by
  decide

theorem frne_le (p : List Nat) : utf8.find_root_name_end p ≤ p.length := by
  unfold utf8.find_root_name_end
  have hf := find_if_idx_le_length utf8.is_slash (p.drop 3)
  rw [List.length_drop] at hf
  split_ifs with h1 h2 h3 h4 h5
  · exact Nat.zero_le _
  · omega
  · exact Nat.zero_le _
  · simp only [Bool.and_eq_true, decide_eq_true_eq] at h4
    omega
  · simp only [Bool.and_eq_true, decide_eq_true_eq] at h5
    omega
  · exact Nat.zero_le _

theorem frne_le_frp (p : List Nat) :
    utf8.find_root_name_end p ≤ utf8.find_relative_path p :=
  Nat.le_add_right _ _

theorem frp_le (p : List Nat) : utf8.find_relative_path p ≤ p.length := by
  unfold utf8.find_relative_path
  have hf := find_if_idx_le_length (fun c => ! utf8.is_slash c)
    (p.drop (utf8.find_root_name_end p))
  rw [List.length_drop] at hf
  have he := frne_le p
  omega

theorem frp_le_ff (p : List Nat) :
    utf8.find_relative_path p ≤ utf8.find_filename p :=
  le_retreat p _ _ p.length (frp_le p)

theorem ff_le (p : List Nat) : utf8.find_filename p ≤ p.length :=
  retreat_le p _ _ p.length

theorem find_extension_le (f : List Nat) : utf8.find_extension f ≤ f.length := by
  unfold utf8.find_extension
  split_ifs with h1 h2 h3 h4
  · exact Nat.le_refl _
  · exact Nat.le_refl _
  · exact Nat.le_refl _
  · omega
  · exact rscan_dot_le f (f.length - 2) (by omega)

/-! ### C8 — drive-letter detection -/

/-- C8: `has_drive_letter_prefix` holds exactly on spans of length at least 2
whose first unit is an ASCII letter (either case, and nothing else) and whose
second unit is `:`; it is true on `"c:"` and `"C:"`, false on `"1:"`, `"c"`
and `""`, and the length conjunct guards the two-unit precondition of
`is_drive_prefix`. -/
theorem c8_has_drive_letter_charact (p : List Nat) (hb : ∀ c ∈ p, c < 256) :
    ( utf8.has_drive_letter_prefix p = true ↔
      2 ≤ p.length ∧ is_ascii_letter (p.getD 0 0) = true ∧ p.getD 1 0 = 58) ∧
    utf8.has_drive_letter_prefix (u "c:") = true ∧
    utf8.has_drive_letter_prefix (u "C:") = true ∧
    utf8.has_drive_letter_prefix (u "1:") = false ∧
    utf8.has_drive_letter_prefix (u "c") = false ∧
    utf8.has_drive_letter_prefix (u "") = false := by
  refine ⟨?_, by decide, by decide, by decide, by decide, by decide⟩
  have h0 := getD_lt_256 p hb 0
  unfold utf8.has_drive_letter_prefix utf8.is_drive_prefix
  rw [drive_letter_decide _ h0]
  simp [and_assoc]

/-- C8 witness at `"c:"`. -/
theorem c8_has_drive_letter_charact_w :
    utf8.has_drive_letter_prefix (u "c:") = true :=
  (c8_has_drive_letter_charact (u "c:") (by decide)).2.1

/-! ### C1 — the root-name boundary -/

theorem bool_and_reorder (a b c d : Bool) :
    (a && b && c && d) = (a && c && d && b) := by
  cases a <;> cases b <;> cases c <;> cases d <;> rfl

/-- C1: on byte-valued spans the spec's six-step decision order computes
exactly `find_root_name_end`, and `root_name` is the sub-span from the start
of the path to that boundary. -/
theorem c1_find_root_name_end_spec (p : List Nat) (hb : ∀ c ∈ p, c < 256) :
    root_name_end_spec p = utf8.find_root_name_end p ∧
    utf8.root_name p = p.take (utf8.find_root_name_end p) := by
  refine ⟨?_, rfl⟩
  have h0 := getD_lt_256 p hb 0
  unfold root_name_end_spec utf8.find_root_name_end
  have hd : utf8.has_drive_letter_prefix p
      = (decide (2 ≤ p.length) && (is_ascii_letter (p.getD 0 0) && p.getD 1 0 == 58)) := by
    unfold utf8.has_drive_letter_prefix utf8.is_drive_prefix
    rw [drive_letter_decide _ h0]
  rw [hd]
  by_cases hlen : p.length < 2
  · rw [if_pos hlen, if_pos hlen]
  · rw [if_neg hlen, if_neg hlen, decide_eq_true (by omega : 2 ≤ p.length), Bool.true_and]
    by_cases hdrv : (is_ascii_letter (p.getD 0 0) && p.getD 1 0 == 58) = true
    · rw [if_pos hdrv, if_pos hdrv]
    · rw [if_neg hdrv, if_neg hdrv]
      by_cases hs : utf8.is_slash (p.getD 0 0) = true
      · have hns : ¬ ((! utf8.is_slash (p.getD 0 0)) = true) := by rw [hs]; decide
        rw [if_neg hns, if_neg hns, hs]
        simp only [Bool.true_and, Bool.and_true]
        rw [bool_and_reorder (decide (4 ≤ p.length))
          (( utf8.is_slash (p.getD 1 0) && (p.getD 2 0 == 63 || p.getD 2 0 == 46))
            || (p.getD 1 0 == 63 && p.getD 2 0 == 63))
          ( utf8.is_slash (p.getD 3 0))
          ((p.length == 4) || ! utf8.is_slash (p.getD 4 0))]
      · have hs' : utf8.is_slash (p.getD 0 0) = false := Bool.eq_false_iff.mpr hs
        rw [hs']
        simp

/-- C1 witness at `"C:\x"`. -/
theorem c1_find_root_name_end_spec_w :
    root_name_end_spec (u "C:\\x") = utf8.find_root_name_end (u "C:\\x") ∧
    utf8.root_name (u "C:\\x") = (u "C:\\x").take (utf8.find_root_name_end (u "C:\\x")) :=
  c1_find_root_name_end_spec (u "C:\\x") (by decide)

/-! ### C7 — component views are sub-ranges of the input -/

theorem view_drop_take (p : List Nat) (f a e : Nat) :
    ((p.drop f).take a).drop e = (p.drop (f + e)).take ((f + a) - (f + e)) := by
  rw [List.drop_take, List.drop_drop, show f + a - (f + e) = a - e from by omega]

theorem view_take_cancel (p : List Nat) (f e : Nat) :
    (p.drop f).take (f + e - f) = (p.drop f).take e := by
  rw [show f + e - f = e from by omega]

/-- C7: each of the six component functions returns a sub-range of the input
span: a view `(p.drop i).take (j - i)` with `0 ≤ i ≤ j ≤ p.length`.  (The
embedding is purely functional, so no function mutates its input.) -/
theorem c7_views_are_subranges (p : List Nat) :
    (∃ i j, i ≤ j ∧ j ≤ p.length ∧ utf8.root_name p = (p.drop i).take (j - i)) ∧
    (∃ i j, i ≤ j ∧ j ≤ p.length ∧ utf8.relative_path p = (p.drop i).take (j - i)) ∧
    (∃ i j, i ≤ j ∧ j ≤ p.length ∧ utf8.parent_path p = (p.drop i).take (j - i)) ∧
    (∃ i j, i ≤ j ∧ j ≤ p.length ∧ utf8.filename p = (p.drop i).take (j - i)) ∧
    (∃ i j, i ≤ j ∧ j ≤ p.length ∧ utf8.stem p = (p.drop i).take (j - i)) ∧
    (∃ i j, i ≤ j ∧ j ≤ p.length ∧ utf8.extension p = (p.drop i).take (j - i)) := by
  have hfa : find_if_idx (fun c => c == 58) (utf8.filename p) ≤ (utf8.filename p).length :=
    find_if_idx_le_length _ _
  have hfl : (utf8.filename p).length = p.length - utf8.find_filename p := List.length_drop _ _
  have hext : utf8.find_extension
        ((utf8.filename p).take (find_if_idx (fun c => c == 58) (utf8.filename p)))
      ≤ find_if_idx (fun c => c == 58) (utf8.filename p) := by
    have h1 := find_extension_le
      ((utf8.filename p).take (find_if_idx (fun c => c == 58) (utf8.filename p)))
    rw [List.length_take] at h1
    exact Nat.le_trans h1 (Nat.min_le_left _ _)
  have hffle := ff_le p
  refine ⟨⟨0, utf8.find_root_name_end p, Nat.zero_le _, frne_le p, ?_⟩,
    ⟨ utf8.find_relative_path p, p.length, frp_le p, Nat.le_refl _, ?_⟩,
    ⟨0, retreat p (utf8.find_relative_path p) utf8.is_slash
        (retreat p (utf8.find_relative_path p) (fun c => ! utf8.is_slash c) p.length),
      Nat.zero_le _, Nat.le_trans (retreat_le _ _ _ _) (retreat_le _ _ _ _), ?_⟩,
    ⟨ utf8.find_filename p, p.length, ff_le p, Nat.le_refl _, ?_⟩,
    ⟨ utf8.find_filename p,
      utf8.find_filename p + utf8.find_extension
        ((utf8.filename p).take (find_if_idx (fun c => c == 58) (utf8.filename p))),
      Nat.le_add_right _ _, by omega, ?_⟩,
    ⟨ utf8.find_filename p + utf8.find_extension
        ((utf8.filename p).take (find_if_idx (fun c => c == 58) (utf8.filename p))),
      utf8.find_filename p + find_if_idx (fun c => c == 58) (utf8.filename p),
      Nat.add_le_add_left hext _, by omega, ?_⟩⟩
  · rw [List.drop_zero, Nat.sub_zero]; rfl
  · rw [← List.length_drop, List.take_length]; rfl
  · rw [List.drop_zero, Nat.sub_zero]; rfl
  · rw [← List.length_drop, List.take_length]; rfl
  · exact (view_take_cancel p _ _).symm
  · exact view_drop_take p _ _ _

/-! ### C6 — root-name, separators, relative-path partition the input -/

theorem slash_take_find_if_not (l : List Nat) (k : Nat)
    (hk : k ≤ find_if_idx (fun c => ! utf8.is_slash c) l) :
    (l.take k).all utf8.is_slash = true := by
  induction l generalizing k with
  | nil => simp
  | cons c cs ih =>
    cases k with
    | zero => simp
    | succ j =>
      simp only [find_if_idx] at hk
      by_cases hc : (! utf8.is_slash c) = true
      · rw [if_pos hc] at hk
        omega
      · rw [if_neg hc] at hk
        rw [List.take_succ_cons, List.all_cons]
        refine Bool.and_eq_true _ _ |>.mpr ⟨?_, ih j (by omega)⟩
        simpa using hc

/-- C6: `find_relative_path` is the first position at or after the root-name
end that is not a slash (or the end if all remaining units are slashes),
every unit between the root-name end and it is a slash, and root-name,
those separators, and relative-path concatenate back to the input. -/
theorem c6_relative_path_coverage (p : List Nat) :
    utf8.find_root_name_end p ≤ utf8.find_relative_path p ∧
    utf8.find_relative_path p ≤ p.length ∧
    ((p.drop (utf8.find_root_name_end p)).take
        (utf8.find_relative_path p - utf8.find_root_name_end p)).all utf8.is_slash = true ∧
    ( utf8.find_relative_path p = p.length ∨
      utf8.is_slash (p.getD (utf8.find_relative_path p) 0) = false) ∧
    utf8.root_name p
      ++ (p.drop (utf8.find_root_name_end p)).take
          (utf8.find_relative_path p - utf8.find_root_name_end p)
      ++ utf8.relative_path p = p := by
  refine ⟨frne_le_frp p, frp_le p, ?_, ?_, ?_⟩
  · unfold utf8.find_relative_path
    rw [Nat.add_sub_cancel_left]
    exact slash_take_find_if_not _ _ (Nat.le_refl _)
  · rcases Nat.lt_or_ge (utf8.find_relative_path p) p.length with h | h
    · right
      have hidx : find_if_idx (fun c => ! utf8.is_slash c) (p.drop (utf8.find_root_name_end p))
          < (p.drop (utf8.find_root_name_end p)).length := by
        rw [List.length_drop]
        have he := frne_le p
        unfold utf8.find_relative_path at h
        omega
      have hf := find_if_idx_found _ _ hidx
      rw [getD_drop] at hf
      unfold utf8.find_relative_path
      simpa using hf
    · left
      exact Nat.le_antisymm (frp_le p) h
  · have he := frne_le_frp p
    unfold utf8.root_name utf8.relative_path
    rw [← List.drop_take]
    have h1 : p.take (utf8.find_root_name_end p)
        = (p.take (utf8.find_relative_path p)).take (utf8.find_root_name_end p) := by
      rw [List.take_take]
      congr 1
      exact (Nat.min_eq_left he).symm
    rw [h1, List.take_append_drop, List.take_append_drop]

/-! ### C9 — the filename boundary -/

theorem retreat_last_false (p : List Nat) (lo : Nat) (pred : Nat → Bool) (t : Nat)
    (ht : 0 < t) (h : pred (p.getD (t - 1) 0) = false) : retreat p lo pred t = t := by
  cases t with
  | zero => omega
  | succ m =>
    have h' : pred (p.getD m 0) = false := by simpa using h
    simp only [retreat, h', Bool.and_false]
    simp

/-- C9: `find_filename` lies between the relative-path start and the end,
every unit from it to the end is not a slash, it stops at the relative-path
start or just after a slash, `filename` is the sub-span from it to the end,
and the filename is empty exactly when nothing but separators follows the
root or the path ends in a separator. -/
theorem c9_find_filename_charact (p : List Nat) :
    ( utf8.find_relative_path p ≤ utf8.find_filename p ∧ utf8.find_filename p ≤ p.length) ∧
    (∀ i, utf8.find_filename p ≤ i → i < p.length → utf8.is_slash (p.getD i 0) = false) ∧
    ( utf8.find_filename p = utf8.find_relative_path p ∨
      utf8.is_slash (p.getD (utf8.find_filename p - 1) 0) = true) ∧
    utf8.filename p = p.drop (utf8.find_filename p) ∧
    ( utf8.filename p = [] ↔
      ( utf8.find_relative_path p = p.length ∨
        (0 < p.length ∧ utf8.is_slash (p.getD (p.length - 1) 0) = true))) ∧
    utf8.filename (u "/cat/dog/") = [] ∧
    utf8.filename (u "C:\\foo\\bar") = u "bar" := by
  refine ⟨⟨frp_le_ff p, ff_le p⟩, ?_, ?_, rfl, ?_, by decide, by decide⟩
  · intro i h1 h2
    have h3 := retreat_pred p (utf8.find_relative_path p)
      (fun c => ! utf8.is_slash c) p.length i h1 h2
    simpa using h3
  · rcases retreat_stop p (utf8.find_relative_path p)
        (fun c => ! utf8.is_slash c) p.length (frp_le p) with h | h
    · left; exact h
    · right; simpa using h
  · constructor
    · intro hemp
      have hfl : p.length ≤ utf8.find_filename p := by
        unfold utf8.filename at hemp
        exact List.drop_eq_nil_iff.mp hemp
      have hf : utf8.find_filename p = p.length := Nat.le_antisymm (ff_le p) hfl
      rcases Nat.lt_or_ge (utf8.find_relative_path p) p.length with h | h
      · right
        refine ⟨by omega, ?_⟩
        rcases retreat_stop p (utf8.find_relative_path p)
            (fun c => ! utf8.is_slash c) p.length (frp_le p) with hst | hst
        · exfalso
          unfold utf8.find_filename at hf
          omega
        · unfold utf8.find_filename at hf
          rw [hf] at hst
          simpa using hst
      · left
        exact Nat.le_antisymm (frp_le p) h
    · intro h
      rcases h with h | ⟨hpos, hsl⟩
      · have hf : utf8.find_filename p = p.length :=
          Nat.le_antisymm (ff_le p) (h ▸ frp_le_ff p)
        unfold utf8.filename
        rw [hf, List.drop_length]
      · have hf : utf8.find_filename p = p.length := by
          apply retreat_last_false p _ _ p.length hpos
          show (! utf8.is_slash (p.getD (p.length - 1) 0)) = false
          rw [hsl]
          rfl
        unfold utf8.filename
        rw [hf, List.drop_length]

/-- C9 witness at `"a/b"`, position 2. -/
theorem c9_find_filename_charact_w :
    utf8.is_slash ((u "a/b").getD 2 0) = false :=
  (c9_find_filename_charact (u "a/b")).2.1 2 (by decide) (by decide)

/-! ### C3 — parent_path strips the filename, then all trailing slashes -/

/-- C3: `parent_path` is the prefix `[0, t)` produced by two passes bounded
below by the relative-path start: a first pass `t1` strips the trailing
filename (only non-slash units are removed, and it stops at the
relative-path start or just after a slash), a second pass strips the whole
run of trailing slashes; with the spec's two concrete examples. -/
theorem c3_parent_path_two_pass (p : List Nat) :
    (∃ t1 t : Nat,
      utf8.find_relative_path p ≤ t1 ∧ t1 ≤ p.length ∧
      (∀ i, t1 ≤ i → i < p.length → utf8.is_slash (p.getD i 0) = false) ∧
      (t1 = utf8.find_relative_path p ∨ utf8.is_slash (p.getD (t1 - 1) 0) = true) ∧
      utf8.find_relative_path p ≤ t ∧ t ≤ t1 ∧
      (∀ i, t ≤ i → i < t1 → utf8.is_slash (p.getD i 0) = true) ∧
      (t = utf8.find_relative_path p ∨ utf8.is_slash (p.getD (t - 1) 0) = false) ∧
      utf8.parent_path p = p.take t) ∧
    utf8.parent_path (u "/cat/dog/\\//\\") = u "/cat/dog" ∧
    utf8.parent_path (u "C:\\foo\\bar") = u "C:\\foo" := by
  refine ⟨⟨retreat p (utf8.find_relative_path p) (fun c => ! utf8.is_slash c) p.length,
    retreat p (utf8.find_relative_path p) utf8.is_slash
      (retreat p (utf8.find_relative_path p) (fun c => ! utf8.is_slash c) p.length),
    le_retreat _ _ _ _ (frp_le p), retreat_le _ _ _ _, ?_, ?_,
    le_retreat _ _ _ _ (le_retreat _ _ _ _ (frp_le p)), retreat_le _ _ _ _,
    ?_, ?_, rfl⟩, by decide, by decide⟩
  · intro i h1 h2
    have h3 := retreat_pred p (utf8.find_relative_path p)
      (fun c => ! utf8.is_slash c) p.length i h1 h2
    simpa using h3
  · rcases retreat_stop p (utf8.find_relative_path p)
        (fun c => ! utf8.is_slash c) p.length (frp_le p) with h | h
    · left; exact h
    · right; simpa using h
  · intro i h1 h2
    exact retreat_pred p (utf8.find_relative_path p) utf8.is_slash _ i h1 h2
  · exact retreat_stop p (utf8.find_relative_path p) utf8.is_slash _
      (le_retreat _ _ _ _ (frp_le p))

/-- C3 witness: the first concrete example, extracted from the theorem. -/
theorem c3_parent_path_two_pass_w :
    utf8.parent_path (u "/cat/dog/\\//\\") = u "/cat/dog" :=
  (c3_parent_path_two_pass (u "/cat/dog/\\//\\")).2.1

/-! ### C2 — the stem/extension division point -/

/-- C2: over a non-empty filename range, `find_extension` gives an empty
extension for a length-1 filename; when the last character is a dot the
extension is empty exactly for `".."` and otherwise is that trailing dot
alone; otherwise the extension starts at the rightmost dot in a position
other than 0, and is empty when there is none (including the leading-dot
hidden-file case); with the spec's concrete stem/extension examples. -/
theorem c2_find_extension_cases (f : List Nat) :
    (f.length = 1 → utf8.find_extension f = f.length) ∧
    (2 ≤ f.length → f.getD (f.length - 1) 0 = 46 →
      utf8.find_extension f = if f = [46, 46] then f.length else f.length - 1) ∧
    (2 ≤ f.length → f.getD (f.length - 1) 0 ≠ 46 →
      ∀ i, 0 < i → i < f.length → f.getD i 0 = 46 →
        (∀ j, i < j → j < f.length → f.getD j 0 ≠ 46) →
        utf8.find_extension f = i) ∧
    (2 ≤ f.length → f.getD (f.length - 1) 0 ≠ 46 →
      (∀ i, 0 < i → i < f.length → f.getD i 0 ≠ 46) →
      utf8.find_extension f = f.length) ∧
    utf8.stem (u "archive.tar.gz") = u "archive.tar" ∧
    utf8.extension (u "archive.tar.gz") = u ".gz" ∧
    utf8.stem (u "..") = u ".." ∧ utf8.extension (u "..") = [] ∧
    utf8.stem (u ".bashrc") = u ".bashrc" ∧ utf8.extension (u ".bashrc") = [] ∧
    utf8.stem (u "x.") = u "x" ∧ utf8.extension (u "x.") = u "." := by
  refine ⟨?_, ?_, ?_, ?_, by decide, by decide, by decide, by decide,
    by decide, by decide, by decide, by decide⟩
  · intro h1
    unfold utf8.find_extension
    rw [if_neg (by omega), if_pos h1]
  · intro h2 hdot
    by_cases hff : f = [46, 46]
    · subst hff
      decide
    · rw [if_neg hff]
      unfold utf8.find_extension
      rw [if_neg (by omega), if_neg (by omega), if_pos (by simpa using hdot), if_neg ?hc]
      case hc =>
        intro hcon
        rw [Bool.and_eq_true, decide_eq_true_eq, beq_iff_eq] at hcon
        obtain ⟨a, b, hab⟩ := List.length_eq_two.mp (by omega : f.length = 2)
        subst hab
        apply hff
        have ha : a = 46 := by simpa using hcon.2
        have hb : b = 46 := by simpa using hdot
        rw [ha, hb]
  · intro h2 hlast i hi0 hilen hidot hirm
    unfold utf8.find_extension
    rw [if_neg (by omega), if_neg (by omega), if_neg (by simpa using hlast)]
    apply rscan_dot_found f _ i hi0 ?_ hidot ?_
    · by_contra hgt
      have hie : i = f.length - 1 := by omega
      exact hlast (hie ▸ hidot)
    · intro j hj1 hj2
      exact hirm j hj1 (by omega)
  · intro h2 hlast hall
    unfold utf8.find_extension
    rw [if_neg (by omega), if_neg (by omega), if_neg (by simpa using hlast)]
    exact rscan_dot_none f _ (fun i hi0 hie => hall i hi0 (by omega))

/-- C2 witness: in `"a.b"` the extension starts at the interior dot. -/
theorem c2_find_extension_cases_w :
    utf8.find_extension (u "a.b") = 1 :=
  (c2_find_extension_cases (u "a.b")).2.2.1 (by decide) (by decide) 1 (by decide)
    (by decide) (by decide)
    (fun j hj1 hj2 => by
      have hlen : (u "a.b").length = 3 := by decide
      have hj : j = 2 := by omega
      subst hj
      decide)

/-! ### C5 — stem ++ extension is the filename minus the data stream -/

theorem all_not_take_find_if_idx (pred : Nat → Bool) (l : List Nat) (k : Nat)
    (hk : k ≤ find_if_idx pred l) : (l.take k).all (fun c => ! pred c) = true := by
  induction l generalizing k with
  | nil => simp
  | cons c cs ih =>
    cases k with
    | zero => simp
    | succ j =>
      simp only [find_if_idx] at hk
      by_cases hc : pred c = true
      · rw [if_pos hc] at hk
        omega
      · rw [if_neg hc] at hk
        rw [List.take_succ_cons, List.all_cons]
        refine Bool.and_eq_true _ _ |>.mpr ⟨?_, ih j (by omega)⟩
        simpa using hc

theorem take_chain (l : List Nat) (e a : Nat) (h : e ≤ a) :
    l.take e ++ (l.take a).drop e = l.take a := by
  rw [show l.take e = (l.take a).take e from by
    rw [List.take_take]
    congr 1
    exact (Nat.min_eq_left h).symm]
  exact List.take_append_drop _ _

/-- C5: `stem ++ extension` is exactly the filename cut at its first `:`
(the start of any alternate-data-stream suffix), so the suffix from the
first `:` onward is removed and neither function returns any of it (the
concatenation contains no `:`); with the spec's concrete example. -/
theorem c5_stem_extension_concat (p : List Nat) :
    utf8.stem p ++ utf8.extension p
      = (utf8.filename p).take (find_if_idx (fun c => c == 58) (utf8.filename p)) ∧
    ( utf8.stem p ++ utf8.extension p).all (fun c => ! (c == 58)) = true ∧
    utf8.stem (u "name:stream") = u "name" ∧
    utf8.extension (u "name:stream") = [] := by
  have hext : utf8.find_extension
        ((utf8.filename p).take (find_if_idx (fun c => c == 58) (utf8.filename p)))
      ≤ find_if_idx (fun c => c == 58) (utf8.filename p) := by
    have h1 := find_extension_le
      ((utf8.filename p).take (find_if_idx (fun c => c == 58) (utf8.filename p)))
    rw [List.length_take] at h1
    exact Nat.le_trans h1 (Nat.min_le_left _ _)
  have h1 : utf8.stem p ++ utf8.extension p
      = (utf8.filename p).take (find_if_idx (fun c => c == 58) (utf8.filename p)) :=
    take_chain _ _ _ hext
  refine ⟨h1, ?_, by decide, by decide⟩
  rw [h1]
  exact all_not_take_find_if_idx _ _ _ (Nat.le_refl _)

/-! ### C4 — support lemmas for re-parsing components -/

theorem slash_ne_colon (c : Nat) (h : utf8.is_slash c = true) : (c == 58) = false := by
  unfold utf8.is_slash at h
  rcases Bool.or_eq_true _ _ ▸ h with h1 | h1
  · rw [beq_iff_eq] at h1
    subst h1
    rfl
  · rw [beq_iff_eq] at h1
    subst h1
    rfl

theorem find_if_idx_zero (pred : Nat → Bool) (l : List Nat)
    (h : 0 < l.length → pred (l.getD 0 0) = true) : find_if_idx pred l = 0 := by
  cases l with
  | nil => rfl
  | cons c cs =>
    simp only [find_if_idx]
    rw [if_pos (by simpa using h (by simp))]

theorem find_if_idx_all_false_idx (pred : Nat → Bool) (l : List Nat)
    (h : ∀ i, i < l.length → pred (l.getD i 0) = false) : find_if_idx pred l = l.length := by
  apply find_if_idx_all_false
  intro c hc
  obtain ⟨i, hi, hci⟩ := List.mem_iff_getElem.mp hc
  have h2 := h i hi
  rw [List.getD_eq_getElem _ _ hi, hci] at h2
  exact h2

/-- A span that starts with two slashes, has a non-slash third unit and no
slash from position 3 on, parses entirely as a (UNC-style) root-name. -/
theorem frne_unc (q : List Nat) (h3q : 3 ≤ q.length)
    (hs0 : utf8.is_slash (q.getD 0 0) = true)
    (hs1 : utf8.is_slash (q.getD 1 0) = true)
    (hs2 : utf8.is_slash (q.getD 2 0) = false)
    (hall : ∀ i, 3 ≤ i → i < q.length → utf8.is_slash (q.getD i 0) = false) :
    utf8.find_root_name_end q = q.length := by
  have hd : utf8.has_drive_letter_prefix q = false := by
    unfold utf8.has_drive_letter_prefix utf8.is_drive_prefix
    rw [slash_ne_colon _ hs1, Bool.and_false, Bool.and_false]
  have hdev : ¬ ((decide (4 ≤ q.length) && utf8.is_slash (q.getD 3 0)
      && (q.length == 4 || ! utf8.is_slash (q.getD 4 0))
      && (( utf8.is_slash (q.getD 1 0) && (q.getD 2 0 == 63 || q.getD 2 0 == 46))
          || (q.getD 1 0 == 63 && q.getD 2 0 == 63))) = true) := by
    intro hc
    simp only [Bool.and_eq_true, decide_eq_true_eq] at hc
    have hf := hall 3 (Nat.le_refl 3) (by omega)
    rw [hc.1.1.2] at hf
    exact absurd hf (by decide)
  unfold utf8.find_root_name_end
  rw [if_neg (by omega),
    if_neg (by rw [hd]; exact Bool.false_ne_true),
    if_neg (by rw [hs0]; decide),
    if_neg hdev,
    if_pos (by rw [decide_eq_true h3q, hs1, hs2]; rfl)]
  rw [find_if_idx_all_false utf8.is_slash (q.drop 3) ?_, List.length_drop]
  · omega
  · intro c hc
    obtain ⟨i, hi, hci⟩ := List.mem_iff_getElem.mp hc
    have h2 : (q.drop 3).getD i 0 = c := by rw [List.getD_eq_getElem _ _ hi, hci]
    rw [← h2, getD_drop]
    rw [List.length_drop] at hi
    exact hall (3 + i) (by omega) (by omega)

/-- Every unit of the filename component is a non-slash unit. -/
theorem filename_all_nonslash (p : List Nat) :
    ∀ i, i < (utf8.filename p).length → utf8.is_slash ((utf8.filename p).getD i 0) = false := by
  intro i hi
  have hlen : (utf8.filename p).length = p.length - utf8.find_filename p :=
    List.length_drop _ _
  have hfle := ff_le p
  have h1 := retreat_pred p (utf8.find_relative_path p) (fun c => ! utf8.is_slash c)
    p.length (utf8.find_filename p + i) (Nat.le_add_right _ _) (by omega)
  have h2 : (! utf8.is_slash (p.getD (utf8.find_filename p + i) 0)) = true := h1
  show utf8.is_slash ((p.drop (utf8.find_filename p)).getD i 0) = false
  rw [getD_drop]
  simpa using h2

/-- A span with no slash anywhere and no drive-letter prefix is its own
filename (its root-name, relative-path and filename boundaries are all 0). -/
theorem filename_of_plain (q : List Nat)
    (hslash : ∀ i, i < q.length → utf8.is_slash (q.getD i 0) = false)
    (hdrive : utf8.has_drive_letter_prefix q = false) :
    utf8.find_root_name_end q = 0 ∧ utf8.find_relative_path q = 0 ∧
    utf8.find_filename q = 0 ∧ utf8.filename q = q := by
  have h1 : utf8.find_root_name_end q = 0 := by
    by_cases hl2 : q.length < 2
    · unfold utf8.find_root_name_end
      rw [if_pos hl2]
    · unfold utf8.find_root_name_end
      rw [if_neg hl2, if_neg (by rw [hdrive]; exact Bool.false_ne_true),
        if_pos (by rw [hslash 0 (by omega)]; rfl)]
  have h2 : utf8.find_relative_path q = 0 := by
    unfold utf8.find_relative_path
    rw [h1, List.drop_zero, Nat.zero_add]
    apply find_if_idx_zero
    intro h0
    show (! utf8.is_slash (q.getD 0 0)) = true
    rw [hslash 0 h0]
    rfl
  have h3 : utf8.find_filename q = 0 := by
    unfold utf8.find_filename
    rw [h2]
    apply retreat_all_true
    intro i hi
    show (! utf8.is_slash (q.getD i 0)) = true
    rw [hslash i hi]
    rfl
  refine ⟨h1, h2, h3, ?_⟩
  show q.drop (utf8.find_filename q) = q
  rw [h3, List.drop_zero]

/-- Conditional idempotence of `root_name`: it holds unless the path begins
with a slash followed by `?` (the `\??\` device form). -/
theorem root_name_idem (p : List Nat)
    (h : ¬ ( utf8.is_slash (p.getD 0 0) = true ∧ p.getD 1 0 = 63)) :
    utf8.root_name (utf8.root_name p) = utf8.root_name p := by
  unfold utf8.root_name
  by_cases h1 : p.length < 2
  · rw [show utf8.find_root_name_end p = 0 from by
      unfold utf8.find_root_name_end
      rw [if_pos h1]]
    rw [List.take_zero, List.take_nil]
  · by_cases h2 : utf8.has_drive_letter_prefix p = true
    · have he : utf8.find_root_name_end p = 2 := by
        unfold utf8.find_root_name_end
        rw [if_neg h1, if_pos h2]
      rw [he]
      have hlen : (p.take 2).length = 2 := by
        rw [List.length_take]
        exact Nat.min_eq_left (by omega)
      have hd : utf8.has_drive_letter_prefix (p.take 2) = true := by
        unfold utf8.has_drive_letter_prefix at h2 ⊢
        rw [hlen, getD_take (by omega : (0:Nat) < 2), getD_take (by omega : (1:Nat) < 2)]
        simp only [Bool.and_eq_true, decide_eq_true_eq] at h2 ⊢
        exact ⟨Nat.le_refl 2, h2.2⟩
      have hq : utf8.find_root_name_end (p.take 2) = 2 := by
        unfold utf8.find_root_name_end
        rw [hlen, if_neg (by omega), if_pos hd]
      rw [hq, List.take_take]
      congr 1
    · by_cases h3 : utf8.is_slash (p.getD 0 0) = true
      case neg =>
        have he : utf8.find_root_name_end p = 0 := by
          unfold utf8.find_root_name_end
          rw [if_neg h1, if_neg h2, if_pos (by rw [Bool.eq_false_iff.mpr h3]; rfl)]
        rw [he, List.take_zero, List.take_nil]
      case pos =>
        have h63 : ¬ (p.getD 1 0 = 63) := fun hc => h ⟨h3, hc⟩
        by_cases h4 : (decide (4 ≤ p.length) && utf8.is_slash (p.getD 3 0)
            && (p.length == 4 || ! utf8.is_slash (p.getD 4 0))
            && (( utf8.is_slash (p.getD 1 0) && (p.getD 2 0 == 63 || p.getD 2 0 == 46))
                || (p.getD 1 0 == 63 && p.getD 2 0 == 63))) = true
        · have he : utf8.find_root_name_end p = 3 := by
            unfold utf8.find_root_name_end
            rw [if_neg h1, if_neg h2, if_neg (by rw [h3]; decide), if_pos h4]
          rw [he]
          have h4' := h4
          simp only [Bool.and_eq_true, Bool.or_eq_true, beq_iff_eq, decide_eq_true_eq] at h4'
          have hs12 : utf8.is_slash (p.getD 1 0) = true ∧ (p.getD 2 0 = 63 ∨ p.getD 2 0 = 46) := by
            rcases h4'.2 with hp | hp
            · exact hp
            · exact absurd hp.1 h63
          have hlen : (p.take 3).length = 3 := by
            rw [List.length_take]
            have h4len : 4 ≤ p.length := h4'.1.1.1
            exact Nat.min_eq_left (by omega)
          rw [frne_unc (p.take 3) (by omega) ?_ ?_ ?_ ?_, List.take_length]
          · rw [getD_take (by omega : (0:Nat) < 3)]
            exact h3
          · rw [getD_take (by omega : (1:Nat) < 3)]
            exact hs12.1
          · rw [getD_take (by omega : (2:Nat) < 3)]
            rcases hs12.2 with hv | hv <;> rw [hv] <;> decide
          · intro i hi3 hilt
            rw [hlen] at hilt
            omega
        · by_cases h5 : (decide (3 ≤ p.length) && utf8.is_slash (p.getD 1 0)
              && ! utf8.is_slash (p.getD 2 0)) = true
          · have he : utf8.find_root_name_end p
                = 3 + find_if_idx utf8.is_slash (p.drop 3) := by
              unfold utf8.find_root_name_end
              rw [if_neg h1, if_neg h2, if_neg (by rw [h3]; decide), if_neg h4, if_pos h5]
            simp only [Bool.and_eq_true, decide_eq_true_eq, Bool.not_eq_true'] at h5
            have hk := find_if_idx_le_length utf8.is_slash (p.drop 3)
            rw [List.length_drop] at hk
            have hlen : (p.take (3 + find_if_idx utf8.is_slash (p.drop 3))).length
                = 3 + find_if_idx utf8.is_slash (p.drop 3) := by
              rw [List.length_take]
              exact Nat.min_eq_left (by omega)
            rw [he, frne_unc _ (by omega) ?_ ?_ ?_ ?_, List.take_length]
            · rw [getD_take (by omega)]
              exact h3
            · rw [getD_take (by omega)]
              exact h5.1.2
            · rw [getD_take (by omega)]
              exact h5.2
            · intro i hi3 hilt
              rw [hlen] at hilt
              rw [getD_take (by omega)]
              have hlt := find_if_idx_lt utf8.is_slash (p.drop 3) (i - 3) (by omega)
              rw [getD_drop, show 3 + (i - 3) = i from by omega] at hlt
              exact hlt
          · have he : utf8.find_root_name_end p = 0 := by
              unfold utf8.find_root_name_end
              rw [if_neg h1, if_neg h2, if_neg (by rw [h3]; decide), if_neg h4, if_neg h5]
            rw [he, List.take_zero, List.take_nil]

/-- Conditional idempotence of `relative_path`: it holds unless the returned
view itself begins with a drive-letter prefix. -/
theorem relative_path_idem (p : List Nat)
    (h : utf8.has_drive_letter_prefix (utf8.relative_path p) = false) :
    utf8.relative_path (utf8.relative_path p) = utf8.relative_path p := by
  have hq0 : 0 < (utf8.relative_path p).length →
      utf8.is_slash ((utf8.relative_path p).getD 0 0) = false := by
    intro hpos
    have hlen : (utf8.relative_path p).length = p.length - utf8.find_relative_path p :=
      List.length_drop _ _
    have hl : utf8.find_relative_path p < p.length := by omega
    have hidx : find_if_idx (fun c => ! utf8.is_slash c) (p.drop (utf8.find_root_name_end p))
        < (p.drop (utf8.find_root_name_end p)).length := by
      rw [List.length_drop]
      have hee := frne_le p
      unfold utf8.find_relative_path at hl
      omega
    have hf := find_if_idx_found _ _ hidx
    rw [getD_drop] at hf
    show utf8.is_slash ((p.drop (utf8.find_relative_path p)).getD 0 0) = false
    rw [getD_drop, Nat.add_zero]
    unfold utf8.find_relative_path
    simpa using hf
  have hfrne : utf8.find_root_name_end (utf8.relative_path p) = 0 := by
    by_cases hl2 : (utf8.relative_path p).length < 2
    · unfold utf8.find_root_name_end
      rw [if_pos hl2]
    · unfold utf8.find_root_name_end
      rw [if_neg hl2, if_neg (by rw [h]; exact Bool.false_ne_true),
        if_pos (by rw [hq0 (by omega)]; rfl)]
  have hfrp : utf8.find_relative_path (utf8.relative_path p) = 0 := by
    unfold utf8.find_relative_path
    rw [hfrne, List.drop_zero, Nat.zero_add]
    apply find_if_idx_zero
    intro h0
    show (! utf8.is_slash ((utf8.relative_path p).getD 0 0)) = true
    rw [hq0 h0]
    rfl
  show (utf8.relative_path p).drop (utf8.find_relative_path (utf8.relative_path p))
      = utf8.relative_path p
  rw [hfrp, List.drop_zero]

/-- Conditional idempotence of `parent_path`: it holds when the parent
consists of root-name and separators only (its relative part is empty). -/
theorem parent_path_idem (p : List Nat)
    (h : utf8.find_relative_path (utf8.parent_path p) = (utf8.parent_path p).length) :
    utf8.parent_path (utf8.parent_path p) = utf8.parent_path p := by
  show (utf8.parent_path p).take (retreat (utf8.parent_path p)
      (utf8.find_relative_path (utf8.parent_path p)) utf8.is_slash
      (retreat (utf8.parent_path p) (utf8.find_relative_path (utf8.parent_path p))
        (fun c => ! utf8.is_slash c) (utf8.parent_path p).length))
    = utf8.parent_path p
  rw [h, retreat_eq_self, retreat_eq_self, List.take_length]

/-- Conditional idempotence of `filename`: it holds unless the returned view
itself begins with a drive-letter prefix. -/
theorem filename_idem (p : List Nat)
    (h : utf8.has_drive_letter_prefix (utf8.filename p) = false) :
    utf8.filename (utf8.filename p) = utf8.filename p :=
  (filename_of_plain (utf8.filename p) (filename_all_nonslash p) h).2.2.2

/-- Every unit of the stem is a non-slash unit. -/
theorem stem_all_nonslash (p : List Nat) :
    ∀ i, i < (utf8.stem p).length → utf8.is_slash ((utf8.stem p).getD i 0) = false := by
  intro i hi
  rw [show (utf8.stem p).length = ((utf8.filename p).take
      (utf8.find_extension ((utf8.filename p).take
        (find_if_idx (fun c => c == 58) (utf8.filename p))))).length from rfl,
    List.length_take] at hi
  have hE : i < utf8.find_extension ((utf8.filename p).take
      (find_if_idx (fun c => c == 58) (utf8.filename p))) :=
    Nat.lt_of_lt_of_le hi (Nat.min_le_left _ _)
  have hF : i < (utf8.filename p).length :=
    Nat.lt_of_lt_of_le hi (Nat.min_le_right _ _)
  show utf8.is_slash (((utf8.filename p).take
      (utf8.find_extension ((utf8.filename p).take
        (find_if_idx (fun c => c == 58) (utf8.filename p))))).getD i 0) = false
  rw [getD_take hE]
  exact filename_all_nonslash p i hF

/-- Every unit of the stem differs from `:` (58). -/
theorem stem_all_noncolon (p : List Nat) :
    ∀ i, i < (utf8.stem p).length → ((utf8.stem p).getD i 0 == 58) = false := by
  intro i hi
  rw [show (utf8.stem p).length = ((utf8.filename p).take
      (utf8.find_extension ((utf8.filename p).take
        (find_if_idx (fun c => c == 58) (utf8.filename p))))).length from rfl,
    List.length_take] at hi
  have hE : i < utf8.find_extension ((utf8.filename p).take
      (find_if_idx (fun c => c == 58) (utf8.filename p))) :=
    Nat.lt_of_lt_of_le hi (Nat.min_le_left _ _)
  have hA : utf8.find_extension ((utf8.filename p).take
        (find_if_idx (fun c => c == 58) (utf8.filename p)))
      ≤ find_if_idx (fun c => c == 58) (utf8.filename p) := by
    have h1 := find_extension_le
      ((utf8.filename p).take (find_if_idx (fun c => c == 58) (utf8.filename p)))
    rw [List.length_take] at h1
    exact Nat.le_trans h1 (Nat.min_le_left _ _)
  show (((utf8.filename p).take
      (utf8.find_extension ((utf8.filename p).take
        (find_if_idx (fun c => c == 58) (utf8.filename p))))).getD i 0 == 58) = false
  rw [getD_take hE]
  exact find_if_idx_lt (fun c => c == 58) (utf8.filename p) i (by omega)

/-- Conditional idempotence of `stem`: it holds when the stem has no
extension of its own. -/
theorem stem_idem (p : List Nat)
    (h : utf8.find_extension (utf8.stem p) = (utf8.stem p).length) :
    utf8.stem (utf8.stem p) = utf8.stem p := by
  have hdrive : utf8.has_drive_letter_prefix (utf8.stem p) = false := by
    unfold utf8.has_drive_letter_prefix utf8.is_drive_prefix
    by_cases hl2 : 2 ≤ (utf8.stem p).length
    · rw [stem_all_noncolon p 1 (by omega), Bool.and_false, Bool.and_false]
    · rw [decide_eq_false (by omega), Bool.false_and]
  obtain ⟨h1, h2, h3, h4⟩ := filename_of_plain (utf8.stem p) (stem_all_nonslash p) hdrive
  have hads : find_if_idx (fun c => c == 58) (utf8.stem p) = (utf8.stem p).length :=
    find_if_idx_all_false_idx _ _ (stem_all_noncolon p)
  show (utf8.filename (utf8.stem p)).take
      (utf8.find_extension ((utf8.filename (utf8.stem p)).take
        (find_if_idx (fun c => c == 58) (utf8.filename (utf8.stem p))))) = utf8.stem p
  rw [h4, hads, List.take_length, h, List.take_length]

/-- Conditional idempotence of `extension`: it holds when the extension is
empty. -/
theorem extension_idem (p : List Nat) (h : utf8.extension p = []) :
    utf8.extension (utf8.extension p) = utf8.extension p := by
  rw [h]
  decide

/-! ### C4 — claim counterexample and the amended statement -/

/-- C4 counterexample: re-parsing a returned component through the same
function is not a no-op; each of the six component functions has a concrete
path on which re-parsing changes the result. -/
theorem c4_idempotence_cex :
    utf8.root_name (utf8.root_name (u "\\??\\x")) ≠ utf8.root_name (u "\\??\\x") ∧
    utf8.relative_path (utf8.relative_path (u "/c:")) ≠ utf8.relative_path (u "/c:") ∧
    utf8.parent_path (utf8.parent_path (u "/a/b")) ≠ utf8.parent_path (u "/a/b") ∧
    utf8.filename (utf8.filename (u "x/c:")) ≠ utf8.filename (u "x/c:") ∧
    utf8.stem (utf8.stem (u "a.b.c")) ≠ utf8.stem (u "a.b.c") ∧
    utf8.extension (utf8.extension (u "a.gz")) ≠ utf8.extension (u "a.gz") :=
  ⟨by decide, by decide, by decide, by decide, by decide, by decide⟩

/-- C4 (amended): re-parsing a component view through the same function is a
no-op only under side conditions: for `root_name`, when the path does not
begin with a slash followed by `?` (the `\??\` device form re-parses to an
empty root); for `relative_path` and `filename`, when the returned view does
not itself begin with a drive-letter prefix; for `parent_path`, when the
parent consists of root-name and separators only (its relative part is
empty); for `stem`, when the stem has no extension of its own; and for
`extension`, only when the extension is empty. -/
theorem c4_idempotence_amended (p : List Nat) :
    (¬ ( utf8.is_slash (p.getD 0 0) = true ∧ p.getD 1 0 = 63) →
      utf8.root_name (utf8.root_name p) = utf8.root_name p) ∧
    ( utf8.has_drive_letter_prefix (utf8.relative_path p) = false →
      utf8.relative_path (utf8.relative_path p) = utf8.relative_path p) ∧
    ( utf8.find_relative_path (utf8.parent_path p) = (utf8.parent_path p).length →
      utf8.parent_path (utf8.parent_path p) = utf8.parent_path p) ∧
    ( utf8.has_drive_letter_prefix (utf8.filename p) = false →
      utf8.filename (utf8.filename p) = utf8.filename p) ∧
    ( utf8.find_extension (utf8.stem p) = (utf8.stem p).length →
      utf8.stem (utf8.stem p) = utf8.stem p) ∧
    ( utf8.extension p = [] →
      utf8.extension (utf8.extension p) = utf8.extension p) :=
  ⟨root_name_idem p, relative_path_idem p, parent_path_idem p, filename_idem p,
    stem_idem p, extension_idem p⟩

/-- C4 witness: each amended side condition discharged at a concrete path. -/
theorem c4_idempotence_amended_w :
    utf8.root_name (utf8.root_name (u "C:\\x")) = utf8.root_name (u "C:\\x") ∧
    utf8.relative_path (utf8.relative_path (u "/a/b")) = utf8.relative_path (u "/a/b") ∧
    utf8.parent_path (utf8.parent_path (u "/a")) = utf8.parent_path (u "/a") ∧
    utf8.filename (utf8.filename (u "/a/b")) = utf8.filename (u "/a/b") ∧
    utf8.stem (utf8.stem (u "a.b")) = utf8.stem (u "a.b") ∧
    utf8.extension (utf8.extension (u "a")) = utf8.extension (u "a") :=
  ⟨(c4_idempotence_amended (u "C:\\x")).1 (by decide),
   (c4_idempotence_amended (u "/a/b")).2.1 (by decide),
   (c4_idempotence_amended (u "/a")).2.2.1 (by decide),
   (c4_idempotence_amended (u "/a/b")).2.2.2.1 (by decide),
   (c4_idempotence_amended (u "a.b")).2.2.2.2.1 (by decide),
   (c4_idempotence_amended (u "a")).2.2.2.2.2 (by decide)⟩

/-! ### C10 — the narrow and wide instantiations agree on shared units -/

theorem wide_is_slash_eq : wide.is_slash = utf8.is_slash := rfl

theorem wide_find_extension_eq : wide.find_extension = utf8.find_extension := rfl

theorem wide_idp_eq (c0 c1 : Nat) (h : c0 < 256) :
    wide.is_drive_prefix c0 c1 = utf8.is_drive_prefix c0 c1 := by
  unfold wide.is_drive_prefix utf8.is_drive_prefix
  rw [drive_wide_narrow c0 h]

theorem wide_hdlp_eq (p : List Nat) (hb : ∀ c ∈ p, c < 256) :
    wide.has_drive_letter_prefix p = utf8.has_drive_letter_prefix p := by
  unfold wide.has_drive_letter_prefix utf8.has_drive_letter_prefix
  rw [wide_idp_eq _ _ (getD_lt_256 p hb 0)]

theorem wide_frne_eq (p : List Nat) (hb : ∀ c ∈ p, c < 256) :
    wide.find_root_name_end p = utf8.find_root_name_end p := by
  unfold wide.find_root_name_end utf8.find_root_name_end
  rw [wide_hdlp_eq p hb, wide_is_slash_eq]

theorem wide_frp_eq (p : List Nat) (hb : ∀ c ∈ p, c < 256) :
    wide.find_relative_path p = utf8.find_relative_path p := by
  unfold wide.find_relative_path utf8.find_relative_path
  rw [wide_frne_eq p hb, wide_is_slash_eq]

theorem wide_parent_eq (p : List Nat) (hb : ∀ c ∈ p, c < 256) :
    wide.parent_path p = utf8.parent_path p := by
  unfold wide.parent_path utf8.parent_path
  rw [wide_frp_eq p hb, wide_is_slash_eq]

theorem wide_ff_eq (p : List Nat) (hb : ∀ c ∈ p, c < 256) :
    wide.find_filename p = utf8.find_filename p := by
  unfold wide.find_filename utf8.find_filename
  rw [wide_frp_eq p hb, wide_is_slash_eq]

theorem wide_filename_eq (p : List Nat) (hb : ∀ c ∈ p, c < 256) :
    wide.filename p = utf8.filename p := by
  unfold wide.filename utf8.filename
  rw [wide_ff_eq p hb]

theorem wide_stem_eq (p : List Nat) (hb : ∀ c ∈ p, c < 256) :
    wide.stem p = utf8.stem p := by
  unfold wide.stem utf8.stem
  rw [wide_filename_eq p hb, wide_find_extension_eq]

theorem wide_extension_eq (p : List Nat) (hb : ∀ c ∈ p, c < 256) :
    wide.extension p = utf8.extension p := by
  unfold wide.extension utf8.extension
  rw [wide_filename_eq p hb, wide_find_extension_eq]

/-- C10: on code-unit sequences representable at both widths (every unit's
value below 256, hence equal across widths), the wide and the narrow
instantiation agree function by function: the same boundary offsets and the
same component contents. -/
theorem c10_wide_narrow_agree (p : List Nat) (hb : ∀ c ∈ p, c < 256) :
    wide.is_slash (p.getD 0 0) = utf8.is_slash (p.getD 0 0) ∧
    wide.is_drive_prefix (p.getD 0 0) (p.getD 1 0)
      = utf8.is_drive_prefix (p.getD 0 0) (p.getD 1 0) ∧
    wide.has_drive_letter_prefix p = utf8.has_drive_letter_prefix p ∧
    wide.find_root_name_end p = utf8.find_root_name_end p ∧
    wide.find_relative_path p = utf8.find_relative_path p ∧
    wide.find_filename p = utf8.find_filename p ∧
    wide.find_extension p = utf8.find_extension p ∧
    wide.root_name p = utf8.root_name p ∧
    wide.relative_path p = utf8.relative_path p ∧
    wide.parent_path p = utf8.parent_path p ∧
    wide.filename p = utf8.filename p ∧
    wide.stem p = utf8.stem p ∧
    wide.extension p = utf8.extension p := by
  refine ⟨rfl, wide_idp_eq _ _ (getD_lt_256 p hb 0), wide_hdlp_eq p hb, wide_frne_eq p hb,
    wide_frp_eq p hb, wide_ff_eq p hb, rfl, ?_, ?_, wide_parent_eq p hb,
    wide_filename_eq p hb, wide_stem_eq p hb, wide_extension_eq p hb⟩
  · unfold wide.root_name utf8.root_name
    rw [wide_frne_eq p hb]
  · unfold wide.relative_path utf8.relative_path
    rw [wide_frp_eq p hb]

/-- C10 witness at `"C:\x"`. -/
theorem c10_wide_narrow_agree_w :
    wide.find_root_name_end (u "C:\\x") = utf8.find_root_name_end (u "C:\\x") :=
  (c10_wide_narrow_agree (u "C:\\x") (by decide)).2.2.2.1
